import Mathlib

/-!
Verification of the rellic AST refinement core against its source.

The definitions below are a shallow embedding of the loop-refinement
rules of `src/lib/AST/LoopRefine.cpp`, of the pass schedule of the
driver (`GeneratePseudocode`), and of the condition-based refinement
pass.  Statements and expressions are modelled structurally; clang
node-pointer identity is modelled by list positions where the source
compares pointers.
-/

/-- Expressions of the output AST: integer literals, variable
references and logical negation (the fragment the loop-refinement
rules inspect and build). -/
inductive Expr where
  | intLit (n : Int)
  | var (name : String)
  | lnot (e : Expr)
deriving DecidableEq, Repr

/-- Statements of the output AST, mirroring the clang statement kinds
used by LoopRefine.cpp: compound statements, `if` with optional else,
`while`, `do`-`while`, `break`, `return`, expression statements and
the null statement. -/
inductive Stmt where
  | compound (stmts : List Stmt)
  | ifS (cond : Expr) (thn : Stmt) (els : Option Stmt)
  | whileS (cond : Expr) (body : Stmt)
  | doS (cond : Expr) (body : Stmt)
  | breakS
  | returnS
  | exprS (e : Expr)
  | nullS

/-- Use-provenance map: each expression node may remember the id of
the IR use it represents (`provenance.use_provenance`). -/
def ProvMap := Expr → Option Nat

/-- The empty provenance map. -/
def provEmpty : ProvMap := fun _ => none

/-- `CopyProvenance(from, to, map)` of rellic's Util: `map[to] = map[from]`. -/
def CopyProvenance (prov : ProvMap) (src dst : Expr) : ProvMap :=
  fun e => if e = dst then prov src else prov e

/-- ASTBuilder::CreateLNot. -/
def CreateLNot (e : Expr) : Expr := Expr.lnot e

/-- ASTBuilder::CreateWhile. -/
def CreateWhile (c : Expr) (b : Stmt) : Stmt := Stmt.whileS c b

/-- ASTBuilder::CreateDo (`do { b } while (c)`). -/
def CreateDo (c : Expr) (b : Stmt) : Stmt := Stmt.doS c b

/-- ASTBuilder::CreateCompoundStmt. -/
def CreateCompoundStmt (ss : List Stmt) : Stmt := Stmt.compound ss

/-- The `cond_true` matcher of LoopRefine.cpp:
`hasCondition(integerLiteral(equals(true)))`, i.e. the condition is
the integer literal 1. -/
def condTrue : Expr → Bool
  | .intLit 1 => true
  | _ => false

/-- `breakStmt()`. -/
def isBreak : Stmt → Bool
  | .breakS => true
  | _ => false

/-- Is the statement an `if` statement (clang `isa<IfStmt>`). -/
def isIf : Stmt → Bool
  | .ifS _ _ _ => true
  | _ => false

/-- The statement children of a node, as traversed by the clang
matchers `has` and `hasDescendant` (expressions contain no
statements, so only statement children matter for `break` search). -/
def childStmts : Stmt → List Stmt
  | .compound ss => ss
  | .ifS _ t e => t :: e.toList
  | .whileS _ b => [b]
  | .doS _ b => [b]
  | _ => []

mutual
/-- Whether the statement is a `break` or has a `break` among its
transitive children (used to express `hasDescendant(breakStmt())`). -/
def hasBreakIncl : Stmt → Bool
  | .breakS => true
  | .compound ss => hasBreakInclList ss
  | .ifS _ t e => hasBreakIncl t || hasBreakInclOpt e
  | .whileS _ b => hasBreakIncl b
  | .doS _ b => hasBreakIncl b
  | _ => false

/-- `hasBreakIncl` over a list of statements. -/
def hasBreakInclList : List Stmt → Bool
  | [] => false
  | s :: ss => hasBreakIncl s || hasBreakInclList ss

/-- `hasBreakIncl` over an optional statement. -/
def hasBreakInclOpt : Option Stmt → Bool
  | none => false
  | some s => hasBreakIncl s
end

/-- The `has_break` matcher: `hasDescendant(breakStmt())` — a strict
descendant of the node is a `break` statement. -/
def stmtHasBreakDesc (s : Stmt) : Bool := (childStmts s).any hasBreakIncl

/-- `has(breakStmt())` — a direct child of the node is a `break`. -/
def hasDirectBreakChild (s : Stmt) : Bool := (childStmts s).any isBreak

/-- The `comp_break` matcher: `compoundStmt(has(breakStmt()),
statementCountIs(1))`, i.e. exactly `{ break; }`. -/
def isCompBreak : Stmt → Bool
  | .compound [.breakS] => true
  | _ => false

/-- `ifStmt(hasThen(comp_break))` — an if statement whose then-arm is
exactly `{ break; }` (WhileRule / DoWhileRule pattern). -/
def isIfThenBreakComp : Stmt → Bool
  | .ifS _ t _ => isCompBreak t
  | _ => false

/-- Index of the first element of the list satisfying `p` (the clang
matcher `has` binds the first matching child in traversal order;
positions model clang pointer identity). -/
def firstIdx (p : Stmt → Bool) : List Stmt → Option Nat
  | [] => none
  | x :: xs => if p x then some 0 else (firstIdx p xs).map (· + 1)

/-- First element of the list satisfying `p`. -/
def firstSuch (p : Stmt → Bool) : List Stmt → Option Stmt
  | [] => none
  | x :: xs => if p x then some x else firstSuch p xs

/-- WhileRule's matcher plus its `run` check: the loop condition is
the literal 1, the body is a compound, and the first child matched by
`has(ifStmt(hasThen(comp_break)))` is the front of the body. -/
def whileRuleFires : Stmt → Bool
  | .whileS c (.compound ss) =>
      condTrue c && firstIdx isIfThenBreakComp ss == some 0
  | _ => false

/-- WhileRule::GetOrCreateSubstitution: for
`while(1){ if(C){break;} else E; rest }` build
`while(!C){ E; rest }`, obtaining `!C` via CreateLNot and copying
C's use-provenance onto it.  `none` models the paths on which the
C++ would fail its casts. -/
def whileRuleApply (prov : ProvMap) : Stmt → Option (Stmt × ProvMap)
  | .whileS _ (.compound (.ifS c _ els :: rest)) =>
      let newCond := CreateLNot c
      let prov' := CopyProvenance prov c newCond
      some (CreateWhile newCond (CreateCompoundStmt (els.toList ++ rest)), prov')
  | _ => none

/-- DoWhileRule's matcher plus `run`: same pattern as WhileRule but
the first child matched by `has(ifStmt(hasThen(comp_break)))` must be
the back of the body. -/
def doWhileRuleFires : Stmt → Bool
  | .whileS c (.compound ss) =>
      condTrue c && firstIdx isIfThenBreakComp ss == some (ss.length - 1)
  | _ => false

/-- DoWhileRule::GetOrCreateSubstitution: for
`while(1){ init; if(C){break;} else E }` build
`do { init; E } while (!C)`, with provenance copied onto `!C`. -/
def doWhileRuleApply (prov : ProvMap) : Stmt → Option (Stmt × ProvMap)
  | .whileS _ (.compound ss) =>
      match ss.getLast? with
      | some (.ifS c _ els) =>
          let newCond := CreateLNot c
          let prov' := CopyProvenance prov c newCond
          some (CreateDo newCond (CreateCompoundStmt (ss.dropLast ++ els.toList)), prov')
      | _ => none
  | _ => none

/-- An `if` whose then-arm has a `break` as a direct child:
`ifStmt(hasThen(has(breakStmt())))`, the NestedDoWhileRule candidate
pattern found by `findAll`. -/
def isCandidateIf : Stmt → Bool
  | .ifS _ t _ => hasDirectBreakChild t
  | _ => false

mutual
/-- Number of NestedDoWhileRule candidate positions in the subtree
(counting the node itself): each one triggers one `run` callback of
the rule's `findAll` matcher. -/
def countCandidateIfs : Stmt → Nat
  | .compound ss => countCandidateIfsList ss
  | .ifS c t e =>
      (if isCandidateIf (.ifS c t e) then 1 else 0) +
        countCandidateIfs t + countCandidateIfsOpt e
  | .whileS _ b => countCandidateIfs b
  | .doS _ b => countCandidateIfs b
  | _ => 0

/-- `countCandidateIfs` summed over a list. -/
def countCandidateIfsList : List Stmt → Nat
  | [] => 0
  | s :: ss => countCandidateIfs s + countCandidateIfsList ss

/-- `countCandidateIfs` over an optional statement. -/
def countCandidateIfsOpt : Option Stmt → Nat
  | none => 0
  | some s => countCandidateIfs s
end

/-- NestedDoWhileRule's matcher plus its stateful `run`: the final
`match` is non-null exactly when the `findAll` matcher produced a
single candidate callback and that candidate is the back of the body
(`run` sets `match = nullptr` from the second callback on). -/
def nestedDoWhileFires : Stmt → Bool
  | .whileS c (.compound ss) =>
      condTrue c && countCandidateIfs (.compound ss) == 1 &&
        (match ss.getLast? with
         | some l => isCandidateIf l
         | none => false)
  | _ => false

/-- NestedDoWhileRule::GetOrCreateSubstitution: for
`while(1){ init; if(C) T else E }` build
`while(1){ do { init; E } while (!C); T }`, with provenance copied
onto `!C`. -/
def nestedDoWhileApply (prov : ProvMap) : Stmt → Option (Stmt × ProvMap)
  | .whileS wc (.compound ss) =>
      match ss.getLast? with
      | some (.ifS c thn els) =>
          let doCond := CreateLNot c
          let prov' := CopyProvenance prov c doCond
          let doStmt := CreateDo doCond (CreateCompoundStmt (ss.dropLast ++ els.toList))
          some (CreateWhile wc (CreateCompoundStmt [doStmt, thn]), prov')
      | _ => none
  | _ => none

/-- `ifStmt(hasThen(has(breakStmt())), hasElse(has(breakStmt())))` —
both arms present, each with a `break` as a direct child (the if
alternative of LoopToSeq's matcher). -/
def isIfBothBreaks : Stmt → Bool
  | .ifS _ t (some e) => hasDirectBreakChild t && hasDirectBreakChild e
  | _ => false

/-- A substatement matched by LoopToSeq's
`hasAnySubstatement(anyOf(...))`: either a direct `break`, or an if
with a `break` as direct child of each arm. -/
def loopToSeqCand (x : Stmt) : Bool := isBreak x || isIfBothBreaks x

/-- LoopToSeq's matcher plus `run`: the first matching substatement
either is a `break` (match unconditionally) or is the bound if, in
which case it must be the back of the body. -/
def loopToSeqFires : Stmt → Bool
  | .whileS c (.compound ss) =>
      condTrue c &&
        (match firstSuch loopToSeqCand ss with
         | some x =>
             isBreak x || firstIdx loopToSeqCand ss == some (ss.length - 1)
         | none => false)
  | _ => false

/-- LoopToSeq's truncation of an if-arm: if the arm is a compound,
keep its statements up to (excluding) the first `break`; any other
arm becomes the empty compound. -/
def truncArm : Stmt → Stmt
  | .compound xs => CreateCompoundStmt (xs.takeWhile (fun x => !isBreak x))
  | _ => CreateCompoundStmt []

/-- LoopToSeq::GetOrCreateSubstitution: if the body's last statement
is an if, truncate both of its arms at their first `break` (the C++
asserts when the else arm is absent); otherwise drop the body's last
statement.  The loop wrapper disappears either way. -/
def loopToSeqApply (prov : ProvMap) : Stmt → Option (Stmt × ProvMap)
  | .whileS _ (.compound ss) =>
      match ss.getLast? with
      | some (.ifS c thn els) =>
          match els with
          | some e =>
              some (CreateCompoundStmt
                      (ss.dropLast ++ [.ifS c (truncArm thn) (some (truncArm e))]),
                    prov)
          | none => none
      | some _ => some (CreateCompoundStmt ss.dropLast, prov)
      | none => none
  | _ => none

/-- CondToSeqRule's matcher: the body is a single
`if (C) T else E` with no `break` descendant in `T` and a `break`
descendant in `E`; `run` accepts unconditionally. -/
def condToSeqFires : Stmt → Bool
  | .whileS c (.compound [.ifS _ t (some e)]) =>
      condTrue c && !stmtHasBreakDesc t && stmtHasBreakDesc e
  | _ => false

/-- The else/then arm as a statement list: a compound arm is
flattened into its statements, any other arm is kept whole. -/
def flattenArm : Stmt → List Stmt
  | .compound xs => xs
  | s => [s]

/-- CondToSeqRule::GetOrCreateSubstitution: for
`while(1){ if(C) T else E }` build
`while(1){ while(C) T; E… }` — note the result keeps the outer
`while` with the original (literal 1) condition. -/
def condToSeqApply (prov : ProvMap) : Stmt → Option (Stmt × ProvMap)
  | .whileS wc (.compound ss) =>
      match ss.head? with
      | some (.ifS c thn els) =>
          match els with
          | some e =>
              let inner := CreateWhile c thn
              some (CreateWhile wc (CreateCompoundStmt (inner :: flattenArm e)), prov)
          | none => none
      | _ => none
  | _ => none

/-- CondToSeqNegRule's matcher: the body is a single
`if (C) T else E` with a `break` descendant in `T` and none in `E`. -/
def condToSeqNegFires : Stmt → Bool
  | .whileS c (.compound [.ifS _ t (some e)]) =>
      condTrue c && stmtHasBreakDesc t && !stmtHasBreakDesc e
  | _ => false

/-- CondToSeqNegRule::GetOrCreateSubstitution: for
`while(1){ if(C) T else E }` build
`while(1){ while(!C) E; T… }`, with provenance copied onto `!C`;
again the outer `while` with the original condition is kept. -/
def condToSeqNegApply (prov : ProvMap) : Stmt → Option (Stmt × ProvMap)
  | .whileS wc (.compound ss) =>
      match ss.head? with
      | some (.ifS c thn els) =>
          match els with
          | some e =>
              let negCond := CreateLNot c
              let prov' := CopyProvenance prov c negCond
              let inner := CreateWhile negCond e
              some (CreateWhile wc (CreateCompoundStmt (inner :: flattenArm thn)), prov')
          | none => none
      | _ => none
  | _ => none

/-- An inference rule: a matcher (pattern plus `run` side-conditions)
and a substitution. -/
structure InferenceRule where
  fires : Stmt → Bool
  apply : ProvMap → Stmt → Option (Stmt × ProvMap)

/-- CondToSeqRule as registered by LoopRefine::VisitWhileStmt. -/
def condToSeqRule : InferenceRule := ⟨condToSeqFires, condToSeqApply⟩

/-- CondToSeqNegRule as registered by LoopRefine::VisitWhileStmt. -/
def condToSeqNegRule : InferenceRule := ⟨condToSeqNegFires, condToSeqNegApply⟩

/-- NestedDoWhileRule as registered by LoopRefine::VisitWhileStmt. -/
def nestedDoWhileRule : InferenceRule := ⟨nestedDoWhileFires, nestedDoWhileApply⟩

/-- LoopToSeq as registered by LoopRefine::VisitWhileStmt. -/
def loopToSeqRule : InferenceRule := ⟨loopToSeqFires, loopToSeqApply⟩

/-- WhileRule as registered by LoopRefine::VisitWhileStmt. -/
def whileRule : InferenceRule := ⟨whileRuleFires, whileRuleApply⟩

/-- DoWhileRule as registered by LoopRefine::VisitWhileStmt. -/
def doWhileRule : InferenceRule := ⟨doWhileRuleFires, doWhileRuleApply⟩

/-- The rule list in the exact order LoopRefine::VisitWhileStmt
emplaces the rules (LoopRefine.cpp lines 309-314). -/
def loopRefineRules : List InferenceRule :=
  [condToSeqRule, condToSeqNegRule, nestedDoWhileRule, loopToSeqRule,
   whileRule, doWhileRule]

/-- Modelled from the spec: `ApplyFirstMatchingRule` of
InferenceRule.cpp is not under src/; per the spec, rules are tried in
the order listed and the first whose pattern and side-conditions hold
applies; if no rule matches the statement is returned unchanged. -/
def ApplyFirstMatchingRule (prov : ProvMap) (s : Stmt) :
    List InferenceRule → Option (Stmt × ProvMap)
  | [] => some (s, prov)
  | r :: rs => if r.fires s then r.apply prov s else ApplyFirstMatchingRule prov s rs

/-- LoopRefine::VisitWhileStmt applied to one `while` statement:
apply the first matching rule of `loopRefineRules`. -/
def loopRefineStep (prov : ProvMap) (s : Stmt) : Option (Stmt × ProvMap) :=
  ApplyFirstMatchingRule prov s loopRefineRules


mutual
/-- Total number of AST nodes of a statement (third component of the
spec's termination measure). -/
def countStmt : Stmt → Nat
  | .compound ss => 1 + countStmtList ss
  | .ifS c t e => 1 + countExprAux c + countStmt t + countStmtOpt e
  | .whileS c b => 1 + countExprAux c + countStmt b
  | .doS c b => 1 + countExprAux c + countStmt b
  | .exprS e => 1 + countExprAux e
  | .breakS => 1
  | .returnS => 1
  | .nullS => 1

/-- `countStmt` summed over a list. -/
def countStmtList : List Stmt → Nat
  | [] => 0
  | s :: ss => countStmt s + countStmtList ss

/-- `countStmt` over an optional statement. -/
def countStmtOpt : Option Stmt → Nat
  | none => 0
  | some s => countStmt s

/-- Total number of AST nodes of an expression. -/
def countExprAux : Expr → Nat
  | .intLit _ => 1
  | .var _ => 1
  | .lnot e => 1 + countExprAux e
end

mutual
/-- Number of `break` statements anywhere in the subtree. -/
def countBreaks : Stmt → Nat
  | .breakS => 1
  | .compound ss => countBreaksList ss
  | .ifS _ t e => countBreaks t + countBreaksOpt e
  | .whileS _ b => countBreaks b
  | .doS _ b => countBreaks b
  | _ => 0

/-- `countBreaks` summed over a list. -/
def countBreaksList : List Stmt → Nat
  | [] => 0
  | s :: ss => countBreaks s + countBreaksList ss

/-- `countBreaks` over an optional statement. -/
def countBreaksOpt : Option Stmt → Nat
  | none => 0
  | some s => countBreaks s
end

mutual
/-- Number of `break` statements that are inside some loop of the
subtree (second component of the spec's termination measure). -/
def breaksInLoops : Stmt → Nat
  | .whileS _ b => countBreaks b
  | .doS _ b => countBreaks b
  | .compound ss => breaksInLoopsList ss
  | .ifS _ t e => breaksInLoops t + breaksInLoopsOpt e
  | _ => 0

/-- `breaksInLoops` summed over a list. -/
def breaksInLoopsList : List Stmt → Nat
  | [] => 0
  | s :: ss => breaksInLoops s + breaksInLoopsList ss

/-- `breaksInLoops` over an optional statement. -/
def breaksInLoopsOpt : Option Stmt → Nat
  | none => 0
  | some s => breaksInLoops s
end

/-- The refinement passes scheduled by the driver
(`GeneratePseudocode`); `z3CondSimplify` carries the tactic pipeline
its instance was configured with. -/
inductive PassId where
  | generateAST
  | deadStmtElim
  | z3CondSimplify (tactics : List String)
  | nestedCondProp
  | nestedScopeCombiner
  | condBasedRefine
  | loopRefine
  | stmtCombine
deriving DecidableEq, Repr

/-- The AST-generation pass manager of GeneratePseudocode: AST
generation followed by dead-statement elimination, run once. -/
def astPhase : List PassId := [.generateAST, .deadStmtElim]

/-- The condition-based-refinement pass manager of
GeneratePseudocode: the CBR condition simplifier (tactics `aig` then
`simplify`), nested-condition propagation, nested-scope combination,
condition-based refinement. -/
def cbrPhase : List PassId :=
  [.z3CondSimplify ["aig", "simplify"], .nestedCondProp,
   .nestedScopeCombiner, .condBasedRefine]

/-- The loop pass manager of GeneratePseudocode: loop refinement then
nested-scope combination. -/
def loopPhase : List PassId :=
  [.loopRefine, .nestedScopeCombiner]

/-- The final pass manager of GeneratePseudocode: the final condition
simplifier (tactics `aig`, `propagate-bv-bounds`, `tseitin-cnf`,
`ctx-simplify`), nested-condition propagation, nested-scope
combination, statement combination. -/
def finPhase : List PassId :=
  [.z3CondSimplify ["aig", "propagate-bv-bounds", "tseitin-cnf", "ctx-simplify"],
   .nestedCondProp, .nestedScopeCombiner, .stmtCombine]

/-- `llvm::legacy::PassManager::run`: run each pass in order on the
module state; report whether any pass changed the module.  The pass
behaviours themselves are abstract (`exec`). -/
def runPM {σ : Type} (exec : PassId → σ → σ × Bool) :
    List PassId → σ → σ × Bool
  | [], s => (s, false)
  | p :: ps, s =>
      let r := exec p s
      let rest := runPM exec ps r.1
      (rest.1, r.2 || rest.2)

/-- A `while (pm.run(module));` fixpoint loop: rerun the pass
manager until it reports no change; `fuel` bounds the number of
sweeps (`none` when exhausted). -/
def runFix {σ : Type} (exec : PassId → σ → σ × Bool) (ps : List PassId) :
    Nat → σ → Option σ
  | 0, _ => none
  | n + 1, s =>
      let r := runPM exec ps s
      if r.2 then runFix exec ps n r.1 else some r.1

/-- The driver `GeneratePseudocode` (src/unnamed/part_001): run the
AST phase once, the CBR phase to a fixpoint, the loop phase to a
fixpoint, and the final phase once. -/
def GeneratePseudocode {σ : Type} (exec : PassId → σ → σ × Bool)
    (fuel1 fuel2 : Nat) (s : σ) : Option σ :=
  let s1 := (runPM exec astPhase s).1
  match runFix exec cbrPhase fuel1 s1 with
  | none => none
  | some s2 =>
      match runFix exec loopPhase fuel2 s2 with
      | none => none
      | some s3 => some (runPM exec finPhase s3).1

/-- Instrumented pass semantics: like `exec`, but also log each pass
as it runs, so that theorems can speak about the order in which the
driver runs the passes. -/
def traceExec {τ : Type} (exec : PassId → τ → τ × Bool) :
    PassId → (List PassId × τ) → (List PassId × τ) × Bool :=
  fun p st =>
    let r := exec p st.2
    ((st.1 ++ [p], r.1), r.2)

/-- Modelled from the spec: the implementation of CondBasedRefine is
not under src/ (only its header, src/unnamed/part_002, is).  Per the
spec and the header comment, for two adjacent statements
`if (C1) A; if (C2) B;` in a compound, if the solver proves that the
guards negate each other the two are merged into `if (C1) A else B;`.
The prover is abstract (`prove C1 C2` holds when the solver shows
`C2 ↔ !C1`); merging requires both ifs to be else-less, and the scan
continues after the merged statement. -/
def condBasedRefineStep (prove : Expr → Expr → Bool) : List Stmt → List Stmt
  | [] => []
  | [s] => [s]
  | s1 :: s2 :: rest =>
      match s1, s2 with
      | .ifS c1 a none, .ifS c2 b none =>
          if prove c1 c2 then
            .ifS c1 a (some b) :: condBasedRefineStep prove rest
          else
            s1 :: condBasedRefineStep prove (s2 :: rest)
      | _, _ => s1 :: condBasedRefineStep prove (s2 :: rest)

/-- A syntactic instance of the prover: recognize that one guard is
literally the `CreateLNot` of the other (the solver can always prove
this equivalence). -/
def provesNegation (c1 c2 : Expr) : Bool :=
  c2 == CreateLNot c1 || c1 == CreateLNot c2

/-- Repeat a pass-manager phase `n` times (the pass sequence of `n`
fixpoint sweeps). -/
def repeatPhase : Nat → List PassId → List PassId
  | 0, _ => []
  | n + 1, ps => ps ++ repeatPhase n ps

/-- Concrete loop `while(1){ if(c){ x; } else { y; break; } }`:
CondToSeqRule's pattern (break only in the else arm). -/
def exCondToSeq : Stmt :=
  .whileS (.intLit 1)
    (.compound [.ifS (.var "c") (.compound [.exprS (.var "x")])
                  (some (.compound [.exprS (.var "y"), .breakS]))])

/-- Concrete loop `while(1){ x; if(c){ break; } }`: NestedDoWhileRule
fires on it inside the loop-refinement pass. -/
def exNestedMeasure : Stmt :=
  .whileS (.intLit 1)
    (.compound [.exprS (.var "x"),
                .ifS (.var "c") (.compound [.breakS]) none])

/-- The spec's scenario S5:
`while(true){ s1; if(c){ t; break; } else { e; break; } }`. -/
def exS5 : Stmt :=
  .whileS (.intLit 1)
    (.compound [.exprS (.var "s1"),
                .ifS (.var "c")
                  (.compound [.exprS (.var "t"), .breakS])
                  (some (.compound [.exprS (.var "e"), .breakS]))])

/-- What the code produces on `exS5`: NestedDoWhileRule (tried before
LoopToSeq) matches — its `findAll` pattern only requires the then-arm
to contain a `break` — and rewrites to
`while(1){ do { s1; { e; break; } } while(!c); { t; break; } }`. -/
def exS5CodeResult : Stmt :=
  .whileS (.intLit 1)
    (.compound [.doS (.lnot (.var "c"))
                  (.compound [.exprS (.var "s1"),
                              .compound [.exprS (.var "e"), .breakS]]),
                .compound [.exprS (.var "t"), .breakS]])

/-- What the spec's S5 scenario expects: `s1; if(c){ t; } else { e; }`. -/
def exS5SpecExpected : Stmt :=
  .compound [.exprS (.var "s1"),
             .ifS (.var "c") (.compound [.exprS (.var "t")])
               (some (.compound [.exprS (.var "e")]))]

/-- Concrete loop `while(1){ break; if(c){ x; } else { y; } }`: the
body contains a direct `break` that is not the final statement, and
the final statement is an `if` with no `break` in its arms. -/
def exTailIf : Stmt :=
  .whileS (.intLit 1)
    (.compound [.breakS,
                .ifS (.var "c") (.compound [.exprS (.var "x")])
                  (some (.compound [.exprS (.var "y")]))])

theorem countStmtList_append (xs ys : List Stmt) :
    countStmtList (xs ++ ys) = countStmtList xs + countStmtList ys := by
  induction xs with
  | nil => simp [countStmtList]
  | cons s ss ih => simp [countStmtList, ih]; omega

theorem countStmtList_toList (o : Option Stmt) :
    countStmtList o.toList = countStmtOpt o := by
  cases o <;> simp [countStmtList, countStmtOpt, Option.toList]

theorem countBreaksList_append (xs ys : List Stmt) :
    countBreaksList (xs ++ ys) = countBreaksList xs + countBreaksList ys := by
  induction xs with
  | nil => simp [countBreaksList]
  | cons s ss ih => simp [countBreaksList, ih]; omega

theorem countBreaksList_toList (o : Option Stmt) :
    countBreaksList o.toList = countBreaksOpt o := by
  cases o <;> simp [countBreaksList, countBreaksOpt, Option.toList]

/-- C1: for every `while` statement visited by loop refinement, the
rules are tried in exactly the order CondToSeq, CondToSeqNeg,
NestedDoWhile, LoopToSeq, WhileRule, DoWhileRule, and the
substitution applied is that of the first rule whose matcher fires;
no later rule is consulted once one matches (and the statement is
left unchanged when none matches). -/
theorem loopRefine_tries_rules_in_order (prov : ProvMap) (s : Stmt) :
    loopRefineStep prov s =
      (if condToSeqFires s then condToSeqApply prov s
       else if condToSeqNegFires s then condToSeqNegApply prov s
       else if nestedDoWhileFires s then nestedDoWhileApply prov s
       else if loopToSeqFires s then loopToSeqApply prov s
       else if whileRuleFires s then whileRuleApply prov s
       else if doWhileRuleFires s then doWhileRuleApply prov s
       else some (s, prov)) := rfl

/-- C5: for every `while(true)` loop whose body's first statement is
`if (C) { break; } else E`, WhileRule matches, and its substitution
is `while (!C) { E; rest }` — the else arm (when present) first, the
remainder of the original body after it, and the new guard obtained
as the logical negation of `C` (with `C`'s use-provenance copied). -/
theorem whileRule_front_if_rewrite (prov : ProvMap) (c : Expr)
    (els : Option Stmt) (rest : List Stmt) :
    whileRuleFires (.whileS (.intLit 1)
        (.compound (.ifS c (.compound [.breakS]) els :: rest))) = true ∧
    whileRuleApply prov (.whileS (.intLit 1)
        (.compound (.ifS c (.compound [.breakS]) els :: rest))) =
      some (.whileS (CreateLNot c) (.compound (els.toList ++ rest)),
            CopyProvenance prov c (CreateLNot c)) :=
  ⟨rfl, rfl⟩

/-- C7: every rule that rewrites a guard `C` into its negation
(WhileRule, DoWhileRule, NestedDoWhileRule, CondToSeqNegRule) builds
the new guard as `CreateLNot C` and copies `C`'s use-provenance onto
it, so the derived guard inherits the use-provenance of its source
expression. -/
theorem negated_guards_inherit_provenance (prov : ProvMap) (wc c : Expr)
    (thn t2 e2 : Stmt) (els : Option Stmt) (front rest : List Stmt) :
    (whileRuleApply prov (.whileS wc (.compound (.ifS c thn els :: rest))) =
       some (.whileS (CreateLNot c) (.compound (els.toList ++ rest)),
             CopyProvenance prov c (CreateLNot c))) ∧
    (doWhileRuleApply prov (.whileS wc (.compound (front ++ [.ifS c thn els]))) =
       some (.doS (CreateLNot c) (.compound (front ++ els.toList)),
             CopyProvenance prov c (CreateLNot c))) ∧
    (nestedDoWhileApply prov (.whileS wc (.compound (front ++ [.ifS c thn els]))) =
       some (.whileS wc
               (.compound [.doS (CreateLNot c) (.compound (front ++ els.toList)), thn]),
             CopyProvenance prov c (CreateLNot c))) ∧
    (condToSeqNegApply prov (.whileS wc (.compound [.ifS c t2 (some e2)])) =
       some (.whileS wc (.compound (.whileS (CreateLNot c) e2 :: flattenArm t2)),
             CopyProvenance prov c (CreateLNot c))) ∧
    CopyProvenance prov c (CreateLNot c) (CreateLNot c) = prov c := by
  refine ⟨rfl, ?_, ?_, rfl, ?_⟩
  · simp [doWhileRuleApply, List.getLast?_concat, List.dropLast_concat,
          CreateDo, CreateCompoundStmt, CreateLNot]
  · simp [nestedDoWhileApply, List.getLast?_concat, List.dropLast_concat,
          CreateDo, CreateWhile, CreateCompoundStmt, CreateLNot]
  · simp [CopyProvenance]

/-- C4: if NestedDoWhileRule's `findAll` matcher produces more than
one candidate callback on the same `while(true)` loop, the rule does
not fire: `run` sets `match` to null from the second callback onward,
even when a later candidate is the if at the tail of the body. -/
theorem nestedDoWhile_multiple_candidates_no_match (wc : Expr)
    (ss : List Stmt) (h : 2 ≤ countCandidateIfs (.compound ss)) :
    nestedDoWhileFires (.whileS wc (.compound ss)) = false := by
  have h1 : countCandidateIfs (Stmt.compound ss) ≠ 1 := by omega
  simp [nestedDoWhileFires, h1]

/-- Witness for C4: the loop
`while(1){ if(a){break;} if(b){break;} }` has two candidate ifs — the
second of which is the tail of the body — and NestedDoWhileRule does
not fire on it. -/
theorem nestedDoWhile_multiple_candidates_no_match_witness :
    2 ≤ countCandidateIfs (.compound
          [.ifS (.var "a") (.compound [.breakS]) none,
           .ifS (.var "b") (.compound [.breakS]) none]) ∧
    nestedDoWhileFires (.whileS (.intLit 1) (.compound
          [.ifS (.var "a") (.compound [.breakS]) none,
           .ifS (.var "b") (.compound [.breakS]) none])) = false :=
  ⟨by decide,
   nestedDoWhile_multiple_candidates_no_match (.intLit 1)
     [.ifS (.var "a") (.compound [.breakS]) none,
      .ifS (.var "b") (.compound [.breakS]) none] (by decide)⟩

/-- C2 (amended): for a `while(true)` whose body is the single
statement `if (C) T else E` with a break only in `E`, CondToSeqRule
rewrites it into `while(true){ while (C) T; E… }` — the inner while
followed by the statements of `E` — still wrapped in a `while` with
the original literal-1 condition; symmetrically CondToSeqNegRule
(break only in `T`) produces `while(true){ while (!C) E; T… }`. -/
theorem condToSeq_rules_keep_outer_while (prov : ProvMap) (c : Expr)
    (t e : Stmt) (hT : stmtHasBreakDesc t = false)
    (hE : stmtHasBreakDesc e = true) :
    (condToSeqFires (.whileS (.intLit 1) (.compound [.ifS c t (some e)])) = true ∧
     condToSeqApply prov (.whileS (.intLit 1) (.compound [.ifS c t (some e)])) =
       some (.whileS (.intLit 1) (.compound (.whileS c t :: flattenArm e)), prov)) ∧
    (condToSeqNegFires (.whileS (.intLit 1) (.compound [.ifS c e (some t)])) = true ∧
     condToSeqNegApply prov (.whileS (.intLit 1) (.compound [.ifS c e (some t)])) =
       some (.whileS (.intLit 1)
               (.compound (.whileS (CreateLNot c) t :: flattenArm e)),
             CopyProvenance prov c (CreateLNot c))) := by
  refine ⟨⟨?_, rfl⟩, ⟨?_, rfl⟩⟩
  · simp [condToSeqFires, condTrue, hT, hE]
  · simp [condToSeqNegFires, condTrue, hT, hE]

/-- Witness for C2's amended theorem, at
`while(1){ if(c){ x; } else { y; break; } }` and its mirror image. -/
theorem condToSeq_rules_keep_outer_while_witness :
    (condToSeqFires exCondToSeq = true ∧
     condToSeqApply provEmpty exCondToSeq =
       some (.whileS (.intLit 1)
               (.compound [.whileS (.var "c") (.compound [.exprS (.var "x")]),
                           .exprS (.var "y"), .breakS]), provEmpty)) ∧
    (condToSeqNegFires (.whileS (.intLit 1)
        (.compound [.ifS (.var "c") (.compound [.exprS (.var "y"), .breakS])
                      (some (.compound [.exprS (.var "x")]))])) = true ∧
     condToSeqNegApply provEmpty (.whileS (.intLit 1)
        (.compound [.ifS (.var "c") (.compound [.exprS (.var "y"), .breakS])
                      (some (.compound [.exprS (.var "x")]))])) =
       some (.whileS (.intLit 1)
               (.compound [.whileS (CreateLNot (.var "c")) (.compound [.exprS (.var "x")]),
                           .exprS (.var "y"), .breakS]),
             CopyProvenance provEmpty (.var "c") (CreateLNot (.var "c")))) :=
  condToSeq_rules_keep_outer_while provEmpty (.var "c")
    (.compound [.exprS (.var "x")]) (.compound [.exprS (.var "y"), .breakS])
    rfl rfl

/-- Counterexample for C2 as stated: refining
`while(1){ if(c){ x; } else { y; break; } }` (CondToSeq is the first
matching rule) yields a statement that is still a `while` loop with
the literal-1 condition — not the bare inner while plus trailing
statements. -/
theorem condToSeq_still_wrapped_in_while_true :
    (loopRefineStep provEmpty exCondToSeq).map Prod.fst =
      some (.whileS (.intLit 1)
              (.compound [.whileS (.var "c") (.compound [.exprS (.var "x")]),
                          .exprS (.var "y"), .breakS])) := rfl

/-- C3 (amended): a successful NestedDoWhileRule rewrite leaves the
number of break statements inside loops unchanged and strictly
increases the total AST node count (by exactly 2), so the spec's
triple is not non-increasing on every successful rewrite. -/
theorem nestedDoWhile_rewrite_measure (prov : ProvMap) (wc c : Expr)
    (front : List Stmt) (thn : Stmt) (els : Option Stmt) :
    (nestedDoWhileApply prov
        (.whileS wc (.compound (front ++ [.ifS c thn els])))).map Prod.fst =
      some (.whileS wc
              (.compound [.doS (CreateLNot c) (.compound (front ++ els.toList)), thn])) ∧
    countStmt (.whileS wc
        (.compound [.doS (CreateLNot c) (.compound (front ++ els.toList)), thn])) =
      countStmt (.whileS wc (.compound (front ++ [.ifS c thn els]))) + 2 ∧
    breaksInLoops (.whileS wc
        (.compound [.doS (CreateLNot c) (.compound (front ++ els.toList)), thn])) =
      breaksInLoops (.whileS wc (.compound (front ++ [.ifS c thn els]))) := by
  refine ⟨?_, ?_, ?_⟩
  · simp [nestedDoWhileApply, List.getLast?_concat, List.dropLast_concat,
          CreateDo, CreateWhile, CreateCompoundStmt, CreateLNot]
  · simp [countStmt, countStmtList, countStmtOpt, countExprAux,
          countStmtList_append, countStmtList_toList]
    omega
  · simp [breaksInLoops, countBreaks, countBreaksList, countBreaksOpt,
          countBreaksList_append, countBreaksList_toList]
    omega

/-- Counterexample for C3 as stated: on `while(1){ x; if(c){break;} }`
the loop-refinement pass succeeds (NestedDoWhileRule fires) yet the
total AST node count strictly increases while the number of breaks
inside loops is unchanged — the triple is not non-increasing. -/
theorem loopRefine_rewrite_increases_node_count :
    (loopRefineStep provEmpty exNestedMeasure).map Prod.fst =
      some (.whileS (.intLit 1)
              (.compound [.doS (.lnot (.var "c")) (.compound [.exprS (.var "x")]),
                          .compound [.breakS]])) ∧
    breaksInLoops (.whileS (.intLit 1)
        (.compound [.doS (.lnot (.var "c")) (.compound [.exprS (.var "x")]),
                    .compound [.breakS]])) = breaksInLoops exNestedMeasure ∧
    countStmt exNestedMeasure <
      countStmt (.whileS (.intLit 1)
        (.compound [.doS (.lnot (.var "c")) (.compound [.exprS (.var "x")]),
                    .compound [.breakS]])) :=
  ⟨rfl, rfl, by decide⟩

/-- C10 (amended): LoopToSeq's substitution removes the last
statement of the body only when that last statement is not an if
statement; when the body ends with an if statement (whether or not
the match fired via a direct `break`), the substitution instead keeps
the whole body and truncates the if's compound arms at their first
`break`. -/
theorem loopToSeq_substitution_cases (prov : ProvMap) (wc c : Expr)
    (ss xs ys : List Stmt) (l : Stmt) :
    (ss.getLast? = some l → isIf l = false →
       loopToSeqApply prov (.whileS wc (.compound ss)) =
         some (.compound ss.dropLast, prov)) ∧
    (ss.getLast? = some (.ifS c (.compound xs) (some (.compound ys))) →
       loopToSeqApply prov (.whileS wc (.compound ss)) =
         some (.compound (ss.dropLast ++
                 [.ifS c (.compound (xs.takeWhile (fun x => !isBreak x)))
                    (some (.compound (ys.takeWhile (fun x => !isBreak x))))]),
               prov)) := by
  constructor
  · intro h hIf
    cases l <;>
      first
        | (simp [loopToSeqApply, h, CreateCompoundStmt]; done)
        | (simp [isIf] at hIf)
  · intro h
    simp [loopToSeqApply, h, truncArm, CreateCompoundStmt]

/-- Witness for C10's amended theorem: on a body `{ break; y; }` the
last statement `y` (not the break) is removed, and on the body of
`exTailIf` (`{ break; if(c){x;}else{y;} }`) the tail if is kept with
its arms intact. -/
theorem loopToSeq_substitution_cases_witness :
    loopToSeqApply provEmpty
        (.whileS (.intLit 1) (.compound [.breakS, .exprS (.var "y")])) =
      some (.compound [.breakS], provEmpty) ∧
    loopToSeqApply provEmpty
        (.whileS (.intLit 1)
          (.compound [.breakS,
                      .ifS (.var "c") (.compound [.exprS (.var "x")])
                        (some (.compound [.exprS (.var "y")]))])) =
      some (.compound [.breakS,
                       .ifS (.var "c") (.compound [.exprS (.var "x")])
                         (some (.compound [.exprS (.var "y")]))], provEmpty) :=
  ⟨(loopToSeq_substitution_cases provEmpty (.intLit 1) (.var "c")
      [.breakS, .exprS (.var "y")] [] [] (.exprS (.var "y"))).1 rfl rfl,
   (loopToSeq_substitution_cases provEmpty (.intLit 1) (.var "c")
      [.breakS,
       .ifS (.var "c") (.compound [.exprS (.var "x")])
         (some (.compound [.exprS (.var "y")]))]
      [.exprS (.var "x")] [.exprS (.var "y")]
      (.exprS (.var "y"))).2 rfl⟩

/-- Counterexample for C10 as stated: on
`while(1){ break; if(c){x;}else{y;} }` LoopToSeq fires because of the
direct `break`, yet the final statement (the if) is not discarded:
the whole pass returns the body with the tail if kept. -/
theorem loopToSeq_keeps_tail_if :
    (loopRefineStep provEmpty exTailIf).map Prod.fst =
      some (.compound [.breakS,
                       .ifS (.var "c") (.compound [.exprS (.var "x")])
                         (some (.compound [.exprS (.var "y")]))]) := rfl

/-- C6: on the spec's S5 input
`while(true){ s1; if(c){ t; break; } else { e; break; } }` the
loop-refinement pass applies NestedDoWhileRule (tried before
LoopToSeq, and its pattern accepts a then-arm that merely contains a
`break`), producing
`while(1){ do { s1; { e; break; } } while(!c); { t; break; } }` —
not the `s1; if(c){ t; } else { e; }` the spec expects. -/
theorem loopRefine_s5_scenario_divergence :
    (loopRefineStep provEmpty exS5).map Prod.fst = some exS5CodeResult ∧
    exS5CodeResult ≠ exS5SpecExpected :=
  ⟨rfl, fun h => Stmt.noConfusion h⟩

/-- C9: for two adjacent `if (C1) A; if (C2) B;` statements in a
compound, when the solver proves the guards negate each other,
condition-based refinement merges them into `if (C1) A else B;`. -/
theorem condBasedRefine_merges_negated_guards (prove : Expr → Expr → Bool)
    (c1 c2 : Expr) (a b : Stmt) (rest : List Stmt)
    (h : prove c1 c2 = true) :
    condBasedRefineStep prove (.ifS c1 a none :: .ifS c2 b none :: rest) =
      .ifS c1 a (some b) :: condBasedRefineStep prove rest := by
  simp [condBasedRefineStep, h]

/-- Witness for C9, the spec's S3 scenario: `if(a) s1; if(!a) s2;`
becomes `if(a) s1 else s2;` under the syntactic negation prover. -/
theorem condBasedRefine_merges_negated_guards_witness :
    provesNegation (.var "a") (CreateLNot (.var "a")) = true ∧
    condBasedRefineStep provesNegation
        [.ifS (.var "a") (.exprS (.var "s1")) none,
         .ifS (CreateLNot (.var "a")) (.exprS (.var "s2")) none] =
      [.ifS (.var "a") (.exprS (.var "s1")) (some (.exprS (.var "s2")))] :=
  ⟨rfl,
   condBasedRefine_merges_negated_guards provesNegation
     (.var "a") (CreateLNot (.var "a"))
     (.exprS (.var "s1")) (.exprS (.var "s2")) [] rfl⟩

theorem runPM_traceExec {τ : Type} (exec : PassId → τ → τ × Bool) :
    ∀ (ps : List PassId) (log : List PassId) (t : τ),
      runPM (traceExec exec) ps (log, t) =
        ((log ++ ps, (runPM exec ps t).1), (runPM exec ps t).2) := by
  intro ps
  induction ps with
  | nil => intro log t; simp [runPM]
  | cons p ps ih => intro log t; simp [runPM, traceExec, ih]

theorem runFix_traceExec {τ : Type} (exec : PassId → τ → τ × Bool)
    (ps : List PassId) :
    ∀ (fuel : Nat) (log : List PassId) (t : τ) (res : List PassId × τ),
      runFix (traceExec exec) ps fuel (log, t) = some res →
      ∃ k t', 1 ≤ k ∧ res = (log ++ repeatPhase k ps, t') := by
  intro fuel
  induction fuel with
  | zero => intro log t res h; simp [runFix] at h
  | succ n ih =>
    intro log t res h
    simp only [runFix, runPM_traceExec] at h
    cases hy : (runPM exec ps t).2 with
    | false =>
        rw [hy] at h
        simp at h
        exact ⟨1, (runPM exec ps t).1, le_refl 1, by simp [repeatPhase, ← h]⟩
    | true =>
        rw [hy] at h
        simp at h
        obtain ⟨k, t', hk, hres⟩ := ih (log ++ ps) (runPM exec ps t).1 res h
        exact ⟨k + 1, t', by omega,
               by simpa [repeatPhase, List.append_assoc] using hres⟩

/-- C8: the driver runs AST generation plus dead-statement
elimination once, then the CBR phase (condition simplifier with
tactics `aig` then `simplify`, nested-condition propagation,
nested-scope combination, condition-based refinement) to a fixpoint,
then the loop phase (loop refinement, nested-scope combination) to a
fixpoint, then exactly once the final phase (condition simplifier
with tactics `aig`, `propagate-bv-bounds`, `tseitin-cnf`,
`ctx-simplify`, nested-condition propagation, nested-scope
combination, statement combination) — in this exact order. -/
theorem generatePseudocode_phase_order {τ : Type}
    (exec : PassId → τ → τ × Bool) (f1 f2 : Nat) (t u : τ)
    (log : List PassId)
    (h : GeneratePseudocode (traceExec exec) f1 f2 ([], t) = some (log, u)) :
    ∃ k1 k2, 1 ≤ k1 ∧ 1 ≤ k2 ∧
      log = astPhase ++ repeatPhase k1 cbrPhase ++
              repeatPhase k2 loopPhase ++ finPhase := by
  unfold GeneratePseudocode at h
  rw [runPM_traceExec] at h
  dsimp only at h
  cases h1 : runFix (traceExec exec) cbrPhase f1
      ([] ++ astPhase, (runPM exec astPhase t).1) with
  | none => rw [h1] at h; exact absurd h (by simp)
  | some s2 =>
      rw [h1] at h
      obtain ⟨k1, t2, hk1, hs2⟩ :=
        runFix_traceExec exec cbrPhase f1 ([] ++ astPhase)
          (runPM exec astPhase t).1 s2 h1
      subst hs2
      dsimp only at h
      cases h2 : runFix (traceExec exec) loopPhase f2
          ([] ++ astPhase ++ repeatPhase k1 cbrPhase, t2) with
      | none => rw [h2] at h; exact absurd h (by simp)
      | some s3 =>
          rw [h2] at h
          obtain ⟨k2, t3, hk2, hs3⟩ :=
            runFix_traceExec exec loopPhase f2
              ([] ++ astPhase ++ repeatPhase k1 cbrPhase) t2 s3 h2
          subst hs3
          dsimp only at h
          rw [runPM_traceExec] at h
          simp at h
          exact ⟨k1, k2, hk1, hk2,
                 by simp [← h.1, List.append_assoc]⟩

/-- Witness for C8: with pass behaviours that never report a change
and fuel 1 for each fixpoint, the driver's trace is exactly one AST
phase, one CBR sweep, one loop sweep and one final phase. -/
theorem generatePseudocode_phase_order_witness :
    ∃ k1 k2, 1 ≤ k1 ∧ 1 ≤ k2 ∧
      astPhase ++ cbrPhase ++ loopPhase ++ finPhase =
        astPhase ++ repeatPhase k1 cbrPhase ++
          repeatPhase k2 loopPhase ++ finPhase :=
  generatePseudocode_phase_order (fun _ (u : Unit) => (u, false)) 1 1 () ()
    (astPhase ++ cbrPhase ++ loopPhase ++ finPhase) rfl
